import Mathlib

/-!
Verification of the anchor witness subsystem of the orb repository:
the witness-policy evaluator and selector (pkg/anchor/witness/policy/policy.go)
and the anchor witness store (pkg/anchor/witness/witness store file).

Modelling conventions:
* Go ints are `Int`; list lengths are coerced where the source compares them.
* Go float64 arithmetic is modelled two ways. The `evaluate` percent
  comparison is over exact rationals: each side is a single correctly-rounded
  quotient, so the float comparison agrees with the exact one for every
  feasible list length. The `minSelection` percent target, where
  `int(math.Ceil(float64(mp)/100*float64(tot)))` genuinely differs from the
  exact ceiling at realistic inputs, is modelled bit-exactly by a binary64
  model over integer significand-exponent pairs (`roundF`, `fdiv`, `fmul`,
  `ceilF`): round to nearest, ties to even, 53-bit significands; overflow and
  subnormals are unreachable from the int64 input range.
* Byte slices are `List Nat`; a Go `nil` slice is `none`, a present (possibly
  empty) slice is `some bytes`, so `w.Proof != nil` is `w.proof.isSome`.
* The JSON marshal/unmarshal round trip of a record is modelled as the
  identity, and the backing key-value store as a list of keyed, tagged
  entries; `store.Put(key, value, tags...)` replaces the value and the whole
  tag set of the entry with that key.
-/

/-- Witness class (`proof.WitnessTypeBatch` / `proof.WitnessTypeSystem`). -/
inductive WitnessType where
  | batch
  | system
deriving DecidableEq, Repr

instance : BEq WitnessType := ⟨fun a b => decide (a = b)⟩

/-- A candidate witness (`proof.Witness`): class, canonical URI, transparency log flag. -/
structure Witness where
  wtype : WitnessType
  uri : String
  hasLog : Bool
deriving DecidableEq, Repr

/-- A stored witness record (`proof.WitnessProof`): the witness data plus the
selection flag and the (possibly absent) opaque proof bytes. -/
structure WitnessProof where
  wtype : WitnessType
  uri : String
  hasLog : Bool
  selected : Bool
  proof : Option (List Nat)
deriving DecidableEq, Repr

/-- Modelled from the spec: the policy operator of the parsed policy
configuration (`config.WitnessPolicyConfig`, package config is not under src);
the spec says `Operator ∈ {AND, OR}`. -/
inductive Operator where
  | AND
  | OR
deriving DecidableEq, Repr

instance : BEq Operator := ⟨fun a b => decide (a = b)⟩

/-- Modelled from the spec: `cfg.OperatorFnc` combines the two class booleans,
`AND → ∧`, `OR → ∨` (package config is not under src). -/
def Operator.fnc : Operator → Bool → Bool → Bool
  | Operator.AND, a, b => a && b
  | Operator.OR, a, b => a || b

/-- Modelled from the spec: the parsed policy configuration
(`config.WitnessPolicyConfig`; package config is not under src). Fields per
the spec data model: per-class `MinNumber`/`MinPercent`, `LogRequired`,
`Operator`. -/
structure WitnessPolicyConfig where
  minNumberBatch : Int
  minPercentBatch : Int
  minNumberSystem : Int
  minPercentSystem : Int
  operator : Operator
  logRequired : Bool
deriving DecidableEq, Repr

/-- Source constant `maxPercent = 100` (policy.go). -/
def maxPercent : Int := 100

/-- Source `checkLog` (policy.go): when the policy requires a transparency log
the witness counts only if it has one; otherwise every witness counts. -/
def checkLog (logRequired hasLog : Bool) : Bool :=
  if logRequired then hasLog else true

/-- Source `evaluate` (policy.go): one class of the policy is satisfied when
`(minNumber != 0 && collected >= minNumber) || percentCollected >= minPercent/maxPercent`,
where `percentCollected` is `collected/total`, or the constant `maxPercent`
when `total == 0`. Float64 arithmetic is modelled exactly over `ℚ`. -/
def evaluate (collected total minNumber minPercent : Int) : Bool :=
  let percentCollected : ℚ :=
    if total ≠ 0 then (collected : ℚ) / (total : ℚ) else (maxPercent : ℚ)
  (minNumber ≠ 0 && collected ≥ minNumber : Bool) ||
    decide (percentCollected ≥ (minPercent : ℚ) / (maxPercent : ℚ))

namespace WitnessPolicy

/-- Counter `totalBatchWitnesses` of the loop in `WitnessPolicy.Evaluate`. -/
def totalBatchWitnesses (witnesses : List WitnessProof) : Int :=
  ((witnesses.filter fun w => w.wtype == WitnessType.batch).length : Int)

/-- Counter `totalSystemWitnesses` of the loop in `WitnessPolicy.Evaluate`. -/
def totalSystemWitnesses (witnesses : List WitnessProof) : Int :=
  ((witnesses.filter fun w => w.wtype == WitnessType.system).length : Int)

/-- Counter `collectedBatchWitnesses` of the loop in `WitnessPolicy.Evaluate`:
batch records with `logOK && w.Proof != nil`. -/
def collectedBatchWitnesses (cfg : WitnessPolicyConfig) (witnesses : List WitnessProof) : Int :=
  ((witnesses.filter fun w =>
    w.wtype == WitnessType.batch && checkLog cfg.logRequired w.hasLog && w.proof.isSome).length : Int)

/-- Counter `collectedSystemWitnesses` of the loop in `WitnessPolicy.Evaluate`:
system records with `logOK && w.Proof != nil`. -/
def collectedSystemWitnesses (cfg : WitnessPolicyConfig) (witnesses : List WitnessProof) : Int :=
  ((witnesses.filter fun w =>
    w.wtype == WitnessType.system && checkLog cfg.logRequired w.hasLog && w.proof.isSome).length : Int)

/-- Source `WitnessPolicy.Evaluate` (policy.go): count totals and collected
proofs per class, evaluate each class, combine with the policy operator.
The configuration fetch through the cache is outside the model; the parsed
configuration is passed directly. -/
def Evaluate (cfg : WitnessPolicyConfig) (witnesses : List WitnessProof) : Bool :=
  let batchCondition := evaluate (collectedBatchWitnesses cfg witnesses)
    (totalBatchWitnesses witnesses) cfg.minNumberBatch cfg.minPercentBatch
  let systemCondition := evaluate (collectedSystemWitnesses cfg witnesses)
    (totalSystemWitnesses witnesses) cfg.minNumberSystem cfg.minPercentSystem
  cfg.operator.fnc batchCondition systemCondition

end WitnessPolicy

/-- Claim-side per-class formula, following the words of the spec:
`satisfied_class = (MinNumber > 0 ∧ collected ≥ MinNumber) ∨ (collected/total ≥ MinPercent/100)`
with a class of `total == 0` records assigned the ratio 100% (the ratio 1). -/
def satisfiedClass (collected total minNumber minPercent : Int) : Prop :=
  (minNumber > 0 ∧ collected ≥ minNumber) ∨
    (if total = 0 then (1 : ℚ) else (collected : ℚ) / (total : ℚ)) ≥ (minPercent : ℚ) / 100

instance (c t mn mp : Int) : Decidable (satisfiedClass c t mn mp) := by
  unfold satisfiedClass
  infer_instance

/-- Claim-side counter for C4, following the words of the spec: a record is
collected only when the log check passes and `len(record.Proof) > 0`, so a
present-but-empty proof is not counted. -/
def collectedLenPos (cls : WitnessType) (cfg : WitnessPolicyConfig) (witnesses : List WitnessProof) : Int :=
  ((witnesses.filter fun w =>
    w.wtype == cls && checkLog cfg.logRequired w.hasLog &&
      (match w.proof with
       | some bs => decide (0 < bs.length)
       | none => false)).length : Int)

/-- Claim-side evaluator for C4: `WitnessPolicy.Evaluate` as the claim
describes it, counting a record only when its proof is non-empty. -/
def EvaluateLenPos (cfg : WitnessPolicyConfig) (witnesses : List WitnessProof) : Bool :=
  cfg.operator.fnc
    (evaluate (collectedLenPos WitnessType.batch cfg witnesses)
      (WitnessPolicy.totalBatchWitnesses witnesses) cfg.minNumberBatch cfg.minPercentBatch)
    (evaluate (collectedLenPos WitnessType.system cfg witnesses)
      (WitnessPolicy.totalSystemWitnesses witnesses) cfg.minNumberSystem cfg.minPercentSystem)

/-- Selector failure: the selection strategy cannot supply the requested
number of witnesses. -/
inductive SelectorErr where
  | notEnoughWitnesses
deriving DecidableEq, Repr

/-- Modelled from the spec: the default selection strategy
(pkg/anchor/witness/policy/selector/random, not under src). Per the spec it
returns `n` of the candidates without duplicates, `n ≤ len(candidates)` is
required (too few eligible witnesses is an error, not a truncation), and a
non-positive `n` selects nothing, realising the spec's clamp of the target to
`≥ 0`. The random choice is modelled by the deterministic choice of the first
`n` candidates. -/
def randomSelect (witnesses : List Witness) (n : Int) : Except SelectorErr (List Witness) :=
  if (witnesses.length : Int) < n then Except.error SelectorErr.notEnoughWitnesses
  else Except.ok (witnesses.take n.toNat)

/-- Source `isExcluded` (policy.go): a witness is excluded when its URI equals
the URI of some member of the exclude list. -/
def isExcluded (witness : Witness) (excluded : List Witness) : Bool :=
  excluded.any fun e => witness.uri == e.uri

/-- Source `intersection` (policy.go), inner loop: walk `b`, keeping members
whose URI was seen in `a` and not yet taken (the hash map with a `false` value
for each URI of `a`, flipped to `true` once taken). -/
def intersectionAux (auris : List String) : List Witness → List String → List Witness
  | [], _ => []
  | w :: rest, taken =>
    if auris.contains w.uri && !(taken.contains w.uri) then
      w :: intersectionAux auris rest (w.uri :: taken)
    else
      intersectionAux auris rest taken

/-- Source `intersection` (policy.go): members of `b` whose URI occurs in `a`,
each URI taken at most once. -/
def intersection (a b : List Witness) : List Witness :=
  intersectionAux (a.map Witness.uri) b []

/-- Source `difference` (policy.go): members of `a` whose URI does not occur
in `b`. -/
def difference (a b : List Witness) : List Witness :=
  a.filter fun w => !((b.map Witness.uri).contains w.uri)

/-- Number of binary digits of `n` (`0` for `0`), by fuelled halving. -/
def bitLenAux : Nat → Nat → Nat
  | 0, _ => 0
  | _ + 1, 0 => 0
  | fuel + 1, n => bitLenAux fuel (n / 2) + 1

/-- Number of binary digits of `n`; the fuel of 400 covers every value the
binary64 model produces from int64 inputs (all below `2^300`). -/
def bitLen (n : Nat) : Nat := bitLenAux 400 n

/-- A binary64 value as an exact pair: significand times two to the exponent.
`roundF m e` rounds `m · 2^e` to 53 significand bits, to nearest, ties to
even — the IEEE-754 binary64 rounding of an exact value in the normal range
(overflow and subnormals are unreachable from the modelled computations). -/
def roundF (m e : Int) : Int × Int :=
  if m = 0 then (0, 0)
  else
    let s := m.natAbs
    let b := bitLen s
    if b ≤ 53 then (m, e)
    else
      let shift := b - 53
      let q := s / 2 ^ shift
      let rm := s % 2 ^ shift
      let half := 2 ^ (shift - 1)
      let q' := if half < rm ∨ (rm = half ∧ q % 2 = 1) then q + 1 else q
      (m.sign * (q' : Int), e + (shift : Int))

/-- Go's `float64(n)` conversion of an integer: the rounded exact value. -/
def toF64 (n : Int) : Int × Int := roundF n 0

/-- Binary64 multiplication: the exact product of the significands, rounded —
the IEEE-754 correctly-rounded product. -/
def fmul (a b : Int × Int) : Int × Int := roundF (a.1 * b.1) (a.2 + b.2)

/-- Binary64 division: the scaled integer quotient with a sticky bit appended
when the remainder is non-zero, then rounded. The quotient carries at least
107 significant bits before rounding to 53, so the sticky bit makes the
result the IEEE-754 correctly-rounded quotient. Division by zero cannot
arise (the only divisor is the constant 100). -/
def fdiv (a b : Int × Int) : Int × Int :=
  if a.1 = 0 ∨ b.1 = 0 then (0, 0)
  else
    let na := a.1.natAbs
    let nd := b.1.natAbs
    let s : Int := a.1.sign * b.1.sign
    let q : Nat := na * 2 ^ 160 / nd
    let rm : Nat := na * 2 ^ 160 % nd
    let e := a.2 - b.2 - 160
    if rm = 0 then roundF (s * (q : Int)) e
    else roundF (s * (2 * (q : Int) + 1)) (e - 1)

/-- `math.Ceil` of a binary64 value followed by Go's `int` conversion: the
exact integer ceiling of `m · 2^e` (`math.Ceil` yields an integral float and
the conversion is exact in the modelled range). -/
def ceilF (a : Int × Int) : Int :=
  if 0 ≤ a.2 then a.1 * 2 ^ a.2.toNat
  else (a.1 + 2 ^ (-a.2).toNat - 1) / 2 ^ (-a.2).toNat

/-- The percent target of `WitnessPolicy.selectMinWitnesses` (policy.go:298),
`int(math.Ceil(float64(minPercent)/maxPercent*float64(totalWitnesses)))`,
computed bit-exactly in the binary64 model: divide first, then multiply, as
the source associates. -/
def goCeilPercent (minPercent totalWitnesses : Int) : Int :=
  ceilF (fmul (fdiv (toF64 minPercent) (toF64 100)) (toF64 totalWitnesses))

namespace WitnessPolicy

/-- The eligible batch witnesses of the loop in
`WitnessPolicy.selectBatchAndSystemWitnesses`: batch witnesses passing the log
check and not excluded. -/
def eligibleBatchWitnesses (cfg : WitnessPolicyConfig) (witnesses exclude : List Witness) :
    List Witness :=
  witnesses.filter fun w =>
    w.wtype == WitnessType.batch && checkLog cfg.logRequired w.hasLog && !(isExcluded w exclude)

/-- The eligible system witnesses of the loop in
`WitnessPolicy.selectBatchAndSystemWitnesses`: system witnesses passing the
log check and not excluded. -/
def eligibleSystemWitnesses (cfg : WitnessPolicyConfig) (witnesses exclude : List Witness) :
    List Witness :=
  witnesses.filter fun w =>
    w.wtype == WitnessType.system && checkLog cfg.logRequired w.hasLog && !(isExcluded w exclude)

/-- Counter `totalBatchWitnesses` of the loop in
`WitnessPolicy.selectBatchAndSystemWitnesses`: every batch witness of the
input, excluded or not. -/
def totalBatchCandidates (witnesses : List Witness) : Int :=
  ((witnesses.filter fun w => w.wtype == WitnessType.batch).length : Int)

/-- Counter `totalSystemWitnesses` of the loop in
`WitnessPolicy.selectBatchAndSystemWitnesses`: every system witness of the
input, excluded or not. -/
def totalSystemCandidates (witnesses : List Witness) : Int :=
  ((witnesses.filter fun w => w.wtype == WitnessType.system).length : Int)

/-- The `minSelection` computation of `WitnessPolicy.selectMinWitnesses`
(policy.go): `minNumber - |preferred|` when `minNumber > 0`, else the float64
`math.Ceil` of `minPercent/maxPercent` of the class total (bit-exact binary64
model `goCeilPercent`) minus `|preferred|` when `minPercent ≥ 0`, else
`|eligible| - |preferred|`. -/
def minSelection (minNumber minPercent totalWitnesses eligibleLen preferredLen : Int) : Int :=
  if minNumber > 0 then minNumber - preferredLen
  else if minPercent ≥ 0 then goCeilPercent minPercent totalWitnesses - preferredLen
  else eligibleLen - preferredLen

/-- Claim-side selection target: the claimed three-way formula with the EXACT
ceiling, written in integer arithmetic via
`⌈minPercent/100 × total⌉ = (minPercent × total + 99) / 100`
(Euclidean division). The program's float64 target differs from it at some
inputs. -/
def minSelectionCeilInt (minNumber minPercent totalWitnesses eligibleLen preferredLen : Int) :
    Int :=
  if minNumber > 0 then minNumber - preferredLen
  else if minPercent ≥ 0 then (minPercent * totalWitnesses + 99) / 100 - preferredLen
  else eligibleLen - preferredLen

/-- Source `WitnessPolicy.selectMinWitnesses` (policy.go): start from the
preferred witnesses, compute the selection target (`minSelection`), and ask
the selection strategy for that many further witnesses from `eligible` minus
`preferred`. -/
def selectMinWitnesses (eligible : List Witness) (minNumber minPercent totalWitnesses : Int)
    (preferred : List Witness) : Except SelectorErr (List Witness) :=
  match randomSelect (difference eligible preferred)
      (minSelection minNumber minPercent totalWitnesses eligible.length preferred.length) with
  | Except.error e => Except.error e
  | Except.ok selection => Except.ok (preferred ++ selection)

/-- Source `WitnessPolicy.selectBatchAndSystemWitnesses` (policy.go): split
the input into eligible batch and system witnesses, compute the common
(preferred) witnesses when the operator is AND, and select each class,
skipping the batch selection when no batch witness is eligible. -/
def selectBatchAndSystemWitnesses (cfg : WitnessPolicyConfig) (witnesses exclude : List Witness) :
    Except SelectorErr (List Witness × List Witness) :=
  let eligibleBatch := eligibleBatchWitnesses cfg witnesses exclude
  let eligibleSystem := eligibleSystemWitnesses cfg witnesses exclude
  let commonWitnesses :=
    if cfg.operator == Operator.AND then intersection eligibleBatch eligibleSystem else []
  match (if eligibleBatch.isEmpty then Except.ok [] else
      selectMinWitnesses eligibleBatch cfg.minNumberBatch cfg.minPercentBatch
        (totalBatchCandidates witnesses) commonWitnesses) with
  | Except.error e => Except.error e
  | Except.ok selectedBatch =>
    match selectMinWitnesses eligibleSystem cfg.minNumberSystem cfg.minPercentSystem
        (totalSystemCandidates witnesses) commonWitnesses with
    | Except.error e => Except.error e
    | Except.ok selectedSystem => Except.ok (selectedBatch, selectedSystem)

/-- Source `WitnessPolicy.Select` (policy.go): select batch and system
witnesses; under AND return their concatenation; under OR return the system
selection when the batch selection is empty or strictly larger than the
system one, else the batch selection. -/
def Select (cfg : WitnessPolicyConfig) (witnesses exclude : List Witness) :
    Except SelectorErr (List Witness) :=
  match selectBatchAndSystemWitnesses cfg witnesses exclude with
  | Except.error e => Except.error e
  | Except.ok (selectedBatch, selectedSystem) =>
    if cfg.operator == Operator.AND then Except.ok (selectedBatch ++ selectedSystem)
    else if selectedBatch.length = 0 || selectedSystem.length < selectedBatch.length then
      Except.ok selectedSystem
    else Except.ok selectedBatch

end WitnessPolicy

namespace WitnessStore

/-- Source constant `anchorIndex = "anchorID"` (witness store). -/
def anchorIndex : String := "anchorID"

/-- Source constant `expiryTagName = "ExpiryTime"` (witness store). -/
def expiryTagName : String := "ExpiryTime"

/-- The unpadded URL-safe base64 encoding of the anchor ID
(`base64.RawURLEncoding.EncodeToString`); the encoding is injective and only
its injectivity is observable through the store interface, so it is modelled
by the identity. -/
def encodeAnchorID (anchorID : String) : String := anchorID

/-- One entry of the backing key-value store: primary key, stored record
(JSON round trip modelled as the identity) and tag set. -/
structure Entry where
  key : Nat
  value : WitnessProof
  tags : List (String × String)
deriving DecidableEq, Repr

/-- The backing store of the `witness` namespace: a list of keyed entries. -/
abbrev WStore : Type := List Entry

/-- An entry matches the query `anchorID:enc` when it carries the anchor
index tag with that value. -/
def hasAnchorTag (e : Entry) (enc : String) : Bool :=
  e.tags.any fun t => t.1 == anchorIndex && t.2 == enc

/-- Store failure values, carrying the data the source formats into the
error string. -/
inductive StoreErr where
  | witnessesNotFound (witnesses : List String) (anchorID : String)
  | anchorNotFound (anchorID : String)
deriving DecidableEq, Repr

/-- The error strings of the source (`fmt.Errorf`): a slice of URIs prints as
the URIs separated by spaces inside brackets. -/
def errMsg : StoreErr → String
  | StoreErr.witnessesNotFound witnesses anchorID =>
    "witness[" ++ String.intercalate " " witnesses ++ "] not found for anchorID[" ++
      anchorID ++ "]"
  | StoreErr.anchorNotFound anchorID =>
    "anchorID[" ++ anchorID ++ "] not found in the store"

/-- Source `Store.Put` (witness store): one new record per witness, each under
a fresh primary key (the UUIDs are supplied as `keys`), tagged with the anchor
index and the expiry time (`now + expiryPeriod`, supplied as `expiryVal`);
the records start with no proof and unselected. -/
def Put (st : WStore) (anchorID : String) (witnesses : List Witness) (keys : List Nat)
    (expiryVal : String) : WStore :=
  st ++ (keys.zip witnesses).map fun kw =>
    { key := kw.1,
      value := { wtype := kw.2.wtype, uri := kw.2.uri, hasLog := kw.2.hasLog,
                 selected := false, proof := none },
      tags := [(anchorIndex, encodeAnchorID anchorID), (expiryTagName, expiryVal)] }

/-- Source `Store.Get` (witness store): all records matching the anchor index
query; an empty result is the not-found error. -/
def Get (st : WStore) (anchorID : String) : Except StoreErr (List WitnessProof) :=
  let witnesses := (st.filter fun e => hasAnchorTag e (encodeAnchorID anchorID)).map Entry.value
  if witnesses.isEmpty then Except.error (StoreErr.anchorNotFound anchorID)
  else Except.ok witnesses

/-- Source `Store.Delete` (witness store): collect the keys matching the
anchor index query and delete them in one batch; no matching record means
nothing to do. Backend failures are outside the model, so the result state is
returned directly. -/
def Delete (st : WStore) (anchorID : String) : WStore :=
  st.filter fun e => !(hasAnchorTag e (encodeAnchorID anchorID))

/-- Source `Store.updateWitnessProof` (witness store): iterate the records of
the anchor; each record whose URI is in the witness set is mutated by
`updateFnc` and written back under the same primary key with the anchor index
tag; a zero count of updated records is the not-found error. -/
def updateWitnessProof (st : WStore) (anchorID : String) (witnesses : List String)
    (updateFnc : WitnessProof → WitnessProof) : Except StoreErr WStore :=
  let enc := encodeAnchorID anchorID
  let matched := st.filter fun e => hasAnchorTag e enc && witnesses.contains e.value.uri
  if matched.length = 0 then Except.error (StoreErr.witnessesNotFound witnesses anchorID)
  else Except.ok (st.map fun e =>
    if hasAnchorTag e enc && witnesses.contains e.value.uri then
      { e with value := updateFnc e.value, tags := [(anchorIndex, enc)] }
    else e)

/-- Source `Store.AddProof` (witness store): update the record of the given
witness URI, setting its proof bytes. -/
def AddProof (st : WStore) (anchorID : String) (witness : String) (p : List Nat) :
    Except StoreErr WStore :=
  updateWitnessProof st anchorID [witness] fun wf => { wf with proof := some p }

/-- Source `Store.UpdateWitnessSelection` (witness store): update the records
of the given witness URIs, setting their selection flag. -/
def UpdateWitnessSelection (st : WStore) (anchorID : String) (witnesses : List String)
    (selected : Bool) : Except StoreErr WStore :=
  updateWitnessProof st anchorID witnesses fun wf => { wf with selected := selected }

end WitnessStore

/-! Concrete fixtures used by witnesses and counterexamples. -/

/-- An AND policy requiring one batch and one system witness. -/
def cfgAndCommon : WitnessPolicyConfig := ⟨1, 100, 1, 100, Operator.AND, false⟩

/-- An OR policy requiring one batch or one system witness. -/
def cfgOr : WitnessPolicyConfig := ⟨1, 100, 1, 100, Operator.OR, false⟩

/-- An AND policy with `LogRequired` set. -/
def cfgLogReq : WitnessPolicyConfig := ⟨1, 100, 1, 100, Operator.AND, true⟩

/-- An AND policy requiring one batch witness and nothing of the system class. -/
def cfgProofPresence : WitnessPolicyConfig := ⟨1, 100, 0, 0, Operator.AND, false⟩

/-- An AND policy requiring two batch witnesses and half the system fleet. -/
def cfgW1 : WitnessPolicyConfig := ⟨2, 50, 0, 50, Operator.AND, false⟩

/-- A batch witness record carrying a present but empty proof. -/
def wpEmptyProof : WitnessProof := ⟨WitnessType.batch, "u", true, false, some []⟩

/-- A mixed record list: two batch records (one proof present), one system record. -/
def wsW1 : List WitnessProof :=
  [⟨WitnessType.batch, "b1", true, false, some [1]⟩,
   ⟨WitnessType.batch, "b2", true, false, none⟩,
   ⟨WitnessType.system, "s1", true, false, some [2]⟩]

/-- A proof transformation keeping presence: any present proof becomes `[7]`. -/
def fKeepPresence : Option (List Nat) → Option (List Nat) :=
  fun o => o.map fun _ => [7]

/-- A batch witness sharing the URI `u` with `wSu`. -/
def wBu : Witness := ⟨WitnessType.batch, "u", true⟩

/-- A system witness sharing the URI `u` with `wBu`. -/
def wSu : Witness := ⟨WitnessType.system, "u", true⟩

/-- A batch witness with URI `b1`. -/
def wB1 : Witness := ⟨WitnessType.batch, "b1", true⟩

/-- A system witness with URI `s1`. -/
def wS1 : Witness := ⟨WitnessType.system, "s1", true⟩

/-- Batch witness `a`. -/
def wa : Witness := ⟨WitnessType.batch, "a", true⟩

/-- Batch witness `b`. -/
def wb : Witness := ⟨WitnessType.batch, "b", true⟩

/-- Batch witness `c`. -/
def wc : Witness := ⟨WitnessType.batch, "c", true⟩

/-- Batch witness `d`. -/
def wd : Witness := ⟨WitnessType.batch, "d", true⟩

/-- A fleet of one hundred batch witnesses. -/
def witnesses100 : List Witness := List.replicate 100 wa

/-- A stored entry for anchor `a` and witness URI `u1`, carrying both the
anchor index tag and an expiry tag, as `Store.Put` writes it. -/
def entU1 : WitnessStore.Entry :=
  ⟨0, ⟨WitnessType.batch, "u1", true, false, none⟩,
   [(WitnessStore.anchorIndex, "a"), (WitnessStore.expiryTagName, "9")]⟩

open WitnessPolicy

/-- A class evaluation is true exactly when the spec per-class formula holds,
for a parsed configuration (`minNumber` non-negative, `minPercent ≤ 100`). -/
theorem evaluate_eq_true_iff (c t mn mp : Int) (hmn : 0 ≤ mn) (hmp : mp ≤ 100) :
    evaluate c t mn mp = true ↔ satisfiedClass c t mn mp := by
  have hmp' : (mp : ℚ) / 100 ≤ 1 := by
    rw [div_le_one (by norm_num : (0:ℚ) < 100)]
    exact_mod_cast hmp
  unfold evaluate satisfiedClass maxPercent
  simp only [Bool.or_eq_true, Bool.and_eq_true, decide_eq_true_eq]
  by_cases ht : t = 0
  · rw [if_neg (by simp [ht]), if_pos ht]
    constructor
    · intro _
      right
      exact hmp'
    · intro _
      right
      push_cast
      exact le_trans hmp' (by norm_num)
  · rw [if_pos ht, if_neg ht]
    constructor
    · rintro (⟨h1, h2⟩ | h)
      · exact Or.inl ⟨lt_of_le_of_ne hmn (Ne.symm h1), h2⟩
      · exact Or.inr h
    · rintro (⟨h1, h2⟩ | h)
      · exact Or.inl ⟨by omega, h2⟩
      · exact Or.inr h

/-- The rational ceiling of an integer divided by 100 in integer arithmetic. -/
theorem ceil_div_100 (a : Int) : ⌈(a : ℚ) / 100⌉ = (a + 99) / 100 := by
  have hfl : ⌊((-a : ℤ) : ℚ) / ((100 : ℕ) : ℚ)⌋ = (-a) / ((100 : ℕ) : ℤ) :=
    Rat.floor_intCast_div_natCast (-a) 100
  have hneg : -((a : ℚ) / 100) = ((-a : ℤ) : ℚ) / ((100 : ℕ) : ℚ) := by
    push_cast
    ring
  have hceil : ⌈(a : ℚ) / 100⌉ = -⌊-((a : ℚ) / 100)⌋ := by
    rw [← Int.ceil_neg, neg_neg]
  rw [hceil, hneg, hfl]
  omega

/-- The modelled selection strategy succeeds exactly when the request does not
exceed the candidates, returning the first `n` (or none for `n ≤ 0`). -/
theorem randomSelect_ok_iff (witnesses : List Witness) (n : Int) (r : List Witness) :
    randomSelect witnesses n = Except.ok r ↔
      (n ≤ (witnesses.length : Int) ∧ r = witnesses.take n.toNat) := by
  unfold randomSelect
  by_cases hlt : (witnesses.length : Int) < n
  · rw [if_pos hlt]
    constructor
    · intro h
      exact absurd h (by simp)
    · intro ⟨h1, _⟩
      omega
  · rw [if_neg hlt]
    constructor
    · intro h
      rw [Except.ok.injEq] at h
      exact ⟨by omega, h.symm⟩
    · intro ⟨_, h2⟩
      rw [h2]

/-- Per-class selection succeeds exactly when the target fits the eligible
non-preferred witnesses, and then returns the preferred ones followed by the
clamped number of further witnesses. -/
theorem selectMinWitnesses_ok_iff (eligible : List Witness) (mn mp tot : Int)
    (preferred r : List Witness) :
    selectMinWitnesses eligible mn mp tot preferred = Except.ok r ↔
      (minSelection mn mp tot eligible.length preferred.length ≤
          ((difference eligible preferred).length : Int) ∧
        r = preferred ++ (difference eligible preferred).take
          (minSelection mn mp tot eligible.length preferred.length).toNat) := by
  unfold selectMinWitnesses
  by_cases hok : randomSelect (difference eligible preferred)
      (minSelection mn mp tot eligible.length preferred.length) =
      Except.ok ((difference eligible preferred).take
        (minSelection mn mp tot eligible.length preferred.length).toNat)
  · rw [hok]
    rcases (randomSelect_ok_iff _ _ _).mp hok with ⟨hle, _⟩
    constructor
    · intro h
      rw [Except.ok.injEq] at h
      exact ⟨hle, h.symm⟩
    · intro ⟨_, h2⟩
      rw [h2]
  · cases hsel : randomSelect (difference eligible preferred)
        (minSelection mn mp tot eligible.length preferred.length) with
    | error e =>
      constructor
      · intro h
        exact absurd h (by simp)
      · intro ⟨hle, h2⟩
        have := (randomSelect_ok_iff _ _ _).mpr ⟨hle, rfl⟩
        rw [hsel] at this
        exact absurd this (by simp)
    | ok sel =>
      have := (randomSelect_ok_iff _ _ sel).mp hsel
      rw [this.2] at hsel
      exact absurd hsel hok

/-- Members of the `intersection` loop come from its second list and carry a
URI of the first. -/
theorem mem_of_mem_intersectionAux (auris : List String) (l : List Witness)
    (taken : List String) (w : Witness) (h : w ∈ intersectionAux auris l taken) :
    w ∈ l ∧ w.uri ∈ auris := by
  induction l generalizing taken with
  | nil => simp [intersectionAux] at h
  | cons x rest ih =>
    unfold intersectionAux at h
    by_cases hc : (auris.contains x.uri && !(taken.contains x.uri)) = true
    · rw [if_pos hc] at h
      rcases List.mem_cons.mp h with hw | hw
      · subst hw
        refine ⟨List.mem_cons_self _ _, ?_⟩
        have := (Bool.and_eq_true _ _).mp hc
        simpa [List.contains] using this.1
      · rcases ih _ hw with ⟨h1, h2⟩
        exact ⟨List.mem_cons_of_mem _ h1, h2⟩
    · rw [if_neg hc] at h
      rcases ih _ h with ⟨h1, h2⟩
      exact ⟨List.mem_cons_of_mem _ h1, h2⟩

/-- Members of a common-witness intersection come from its second list. -/
theorem mem_of_mem_intersection (a b : List Witness) (w : Witness)
    (h : w ∈ intersection a b) : w ∈ b ∧ w.uri ∈ a.map Witness.uri := by
  unfold intersection at h
  exact mem_of_mem_intersectionAux _ _ _ _ h

/-- The `intersection` loop never repeats a URI: its hash map marks each URI
taken. -/
theorem intersectionAux_uris_nodup (auris : List String) (l : List Witness)
    (taken : List String) :
    ((intersectionAux auris l taken).map Witness.uri).Nodup ∧
      ∀ u ∈ (intersectionAux auris l taken).map Witness.uri, u ∉ taken := by
  induction l generalizing taken with
  | nil => simp [intersectionAux]
  | cons x rest ih =>
    unfold intersectionAux
    by_cases hc : (auris.contains x.uri && !(taken.contains x.uri)) = true
    · rw [if_pos hc]
      rcases ih (x.uri :: taken) with ⟨hnd, hnt⟩
      have hx : x.uri ∉ taken := by
        have := (Bool.and_eq_true _ _).mp hc
        simpa [List.contains] using this.2
      refine ⟨?_, ?_⟩
      · rw [List.map_cons, List.nodup_cons]
        refine ⟨fun hmem => ?_, hnd⟩
        exact (hnt _ hmem) (List.mem_cons_self _ _)
      · intro u hu
        rw [List.map_cons, List.mem_cons] at hu
        rcases hu with hu | hu
        · subst hu
          exact hx
        · intro htaken
          exact (hnt _ hu) (List.mem_cons_of_mem _ htaken)
    · rw [if_neg hc]
      exact ih taken

/-- The intersection with an empty first list is empty. -/
theorem intersectionAux_nil : ∀ (l : List Witness) (taken : List String),
    intersectionAux [] l taken = [] := by
  intro l
  induction l with
  | nil =>
    intro taken
    rfl
  | cons x rest ih =>
    intro taken
    unfold intersectionAux
    rw [if_neg]
    · exact ih taken
    · simp [List.contains]

/-- Membership in the `difference` of two witness lists. -/
theorem mem_difference (a b : List Witness) (w : Witness) :
    w ∈ difference a b ↔ (w ∈ a ∧ w.uri ∉ b.map Witness.uri) := by
  simp [difference, List.mem_filter, List.contains]

/-- Every selected witness of a class is preferred or eligible. -/
theorem mem_of_selectMinWitnesses (el : List Witness) (mn mp tot : Int)
    (pref r : List Witness) (h : selectMinWitnesses el mn mp tot pref = Except.ok r) :
    ∀ w ∈ r, w ∈ pref ∨ w ∈ el := by
  rcases (selectMinWitnesses_ok_iff el mn mp tot pref r).mp h with ⟨-, hr⟩
  intro w hw
  rw [hr, List.mem_append] at hw
  rcases hw with hw | hw
  · exact Or.inl hw
  · right
    have hmem := List.take_subset _ _ hw
    exact ((mem_difference el pref w).mp hmem).1

/-- Inversion of a successful batch-and-system selection: the batch side is
skipped exactly when no batch witness is eligible, and each side is a
`selectMinWitnesses` result over the common (preferred) witnesses. -/
theorem selectBatchAndSystemWitnesses_ok_elim (cfg : WitnessPolicyConfig)
    (ws ex sb ss : List Witness)
    (h : selectBatchAndSystemWitnesses cfg ws ex = Except.ok (sb, ss)) :
    ((eligibleBatchWitnesses cfg ws ex).isEmpty = true ∧ sb = [] ∨
      selectMinWitnesses (eligibleBatchWitnesses cfg ws ex) cfg.minNumberBatch
        cfg.minPercentBatch (totalBatchCandidates ws)
        (if cfg.operator == Operator.AND then
          intersection (eligibleBatchWitnesses cfg ws ex) (eligibleSystemWitnesses cfg ws ex)
        else []) = Except.ok sb)
    ∧ selectMinWitnesses (eligibleSystemWitnesses cfg ws ex) cfg.minNumberSystem
        cfg.minPercentSystem (totalSystemCandidates ws)
        (if cfg.operator == Operator.AND then
          intersection (eligibleBatchWitnesses cfg ws ex) (eligibleSystemWitnesses cfg ws ex)
        else []) = Except.ok ss := by
  simp only [selectBatchAndSystemWitnesses] at h
  split at h
  · exact absurd h (by simp)
  · rename_i sb' hmb
    split at h
    · exact absurd h (by simp)
    · rename_i ss' hms
      rw [Except.ok.injEq, Prod.mk.injEq] at h
      rcases h with ⟨hsb, hss⟩
      subst hsb
      subst hss
      constructor
      · by_cases hempty : (eligibleBatchWitnesses cfg ws ex).isEmpty = true
        · rw [if_pos hempty] at hmb
          rw [Except.ok.injEq] at hmb
          exact Or.inl ⟨hempty, hmb.symm⟩
        · rw [if_neg hempty] at hmb
          exact Or.inr hmb
      · exact hms

/-- When the pair selection succeeds, `Select` is the operator branch over it. -/
theorem Select_eq_of_pair (cfg : WitnessPolicyConfig) (ws ex sb ss : List Witness)
    (h : selectBatchAndSystemWitnesses cfg ws ex = Except.ok (sb, ss)) :
    Select cfg ws ex =
      (if cfg.operator == Operator.AND then Except.ok (sb ++ ss)
       else if sb.length = 0 || ss.length < sb.length then Except.ok ss
       else Except.ok sb) := by
  unfold Select
  rw [h]

/-- Under a log-requiring policy every eligible batch witness has a log. -/
theorem eligibleBatch_hasLog (cfg : WitnessPolicyConfig) (ws ex : List Witness)
    (hlog : cfg.logRequired = true) :
    ∀ w ∈ eligibleBatchWitnesses cfg ws ex, w.hasLog = true := by
  intro w hw
  simp only [eligibleBatchWitnesses, List.mem_filter, Bool.and_eq_true] at hw
  rcases hw with ⟨-, ⟨⟨-, hchk⟩, -⟩⟩
  rw [hlog] at hchk
  simpa [checkLog] using hchk

/-- Under a log-requiring policy every eligible system witness has a log. -/
theorem eligibleSystem_hasLog (cfg : WitnessPolicyConfig) (ws ex : List Witness)
    (hlog : cfg.logRequired = true) :
    ∀ w ∈ eligibleSystemWitnesses cfg ws ex, w.hasLog = true := by
  intro w hw
  simp only [eligibleSystemWitnesses, List.mem_filter, Bool.and_eq_true] at hw
  rcases hw with ⟨-, ⟨⟨-, hchk⟩, -⟩⟩
  rw [hlog] at hchk
  simpa [checkLog] using hchk

/-- Common witnesses are eligible system witnesses. -/
theorem mem_common_sub (cfg : WitnessPolicyConfig) (ws ex : List Witness) (w : Witness)
    (h : w ∈ (if cfg.operator == Operator.AND then
      intersection (eligibleBatchWitnesses cfg ws ex) (eligibleSystemWitnesses cfg ws ex)
    else [])) : w ∈ eligibleSystemWitnesses cfg ws ex := by
  by_cases hand : (cfg.operator == Operator.AND) = true
  · rw [if_pos hand] at h
    exact (mem_of_mem_intersection _ _ _ h).1
  · rw [if_neg hand] at h
    simp at h

/-- A URI occurring in a URI-distinct witness list is matched exactly once. -/
theorem countP_uri_eq_one (l : List Witness) (u : String) (hnd : (l.map Witness.uri).Nodup)
    (hu : u ∈ l.map Witness.uri) : (l.countP fun w => w.uri == u) = 1 := by
  induction l with
  | nil => simp at hu
  | cons x rest ih =>
    rw [List.map_cons, List.nodup_cons] at hnd
    rw [List.map_cons, List.mem_cons] at hu
    rcases hu with hu | hu
    · subst hu
      rw [List.countP_cons_of_pos _ _ (by simp)]
      have hz : (rest.countP fun w => w.uri == x.uri) = 0 := by
        rw [List.countP_eq_zero]
        intro w hw
        simp only [beq_iff_eq]
        intro heq
        exact hnd.1 (heq ▸ List.mem_map_of_mem Witness.uri hw)
      rw [hz]
    · have hne : x.uri ≠ u := fun heq => hnd.1 (heq ▸ hu)
      rw [List.countP_cons_of_neg _ _ (by simp [hne])]
      exact ih hnd.2 hu

/-- C1: for every record list and parsed configuration (non-negative
`MinNumber`, `MinPercent ≤ 100`), `Evaluate` decides each class by
`(MinNumber > 0 ∧ collected ≥ MinNumber) ∨ (collected/total ≥ MinPercent/100)`
with a zero-total class assigned the ratio 100% and therefore satisfied, and
combines the class results with the policy operator (AND → ∧, OR → ∨). -/
theorem Evaluate_c1 (cfg : WitnessPolicyConfig) (ws : List WitnessProof)
    (h1 : 0 ≤ cfg.minNumberBatch) (h2 : 0 ≤ cfg.minNumberSystem)
    (h3 : cfg.minPercentBatch ≤ 100) (h4 : cfg.minPercentSystem ≤ 100) :
    (WitnessPolicy.Evaluate cfg ws = true ↔
      (match cfg.operator with
       | Operator.AND =>
         satisfiedClass (WitnessPolicy.collectedBatchWitnesses cfg ws)
             (WitnessPolicy.totalBatchWitnesses ws) cfg.minNumberBatch cfg.minPercentBatch ∧
           satisfiedClass (WitnessPolicy.collectedSystemWitnesses cfg ws)
             (WitnessPolicy.totalSystemWitnesses ws) cfg.minNumberSystem cfg.minPercentSystem
       | Operator.OR =>
         satisfiedClass (WitnessPolicy.collectedBatchWitnesses cfg ws)
             (WitnessPolicy.totalBatchWitnesses ws) cfg.minNumberBatch cfg.minPercentBatch ∨
           satisfiedClass (WitnessPolicy.collectedSystemWitnesses cfg ws)
             (WitnessPolicy.totalSystemWitnesses ws) cfg.minNumberSystem cfg.minPercentSystem))
    ∧ (WitnessPolicy.totalBatchWitnesses ws = 0 →
        satisfiedClass (WitnessPolicy.collectedBatchWitnesses cfg ws)
          (WitnessPolicy.totalBatchWitnesses ws) cfg.minNumberBatch cfg.minPercentBatch)
    ∧ (WitnessPolicy.totalSystemWitnesses ws = 0 →
        satisfiedClass (WitnessPolicy.collectedSystemWitnesses cfg ws)
          (WitnessPolicy.totalSystemWitnesses ws) cfg.minNumberSystem cfg.minPercentSystem) := by
  have hb := evaluate_eq_true_iff (WitnessPolicy.collectedBatchWitnesses cfg ws)
    (WitnessPolicy.totalBatchWitnesses ws) cfg.minNumberBatch cfg.minPercentBatch h1 h3
  have hs := evaluate_eq_true_iff (WitnessPolicy.collectedSystemWitnesses cfg ws)
    (WitnessPolicy.totalSystemWitnesses ws) cfg.minNumberSystem cfg.minPercentSystem h2 h4
  refine ⟨?_, ?_, ?_⟩
  · unfold WitnessPolicy.Evaluate
    cases hop : cfg.operator
    · simp only [Operator.fnc, Bool.and_eq_true]
      rw [hb, hs]
    · simp only [Operator.fnc, Bool.or_eq_true]
      rw [hb, hs]
  · intro ht
    unfold satisfiedClass
    right
    rw [if_pos ht]
    rw [ge_iff_le, div_le_one (by norm_num : (0:ℚ) < 100)]
    exact_mod_cast h3
  · intro ht
    unfold satisfiedClass
    right
    rw [if_pos ht]
    rw [ge_iff_le, div_le_one (by norm_num : (0:ℚ) < 100)]
    exact_mod_cast h4

/-- Witness for C1 at a concrete AND policy and record list. -/
theorem Evaluate_c1_witness :
    WitnessPolicy.Evaluate cfgW1 wsW1 = true ↔
      (satisfiedClass (WitnessPolicy.collectedBatchWitnesses cfgW1 wsW1)
          (WitnessPolicy.totalBatchWitnesses wsW1) cfgW1.minNumberBatch cfgW1.minPercentBatch ∧
        satisfiedClass (WitnessPolicy.collectedSystemWitnesses cfgW1 wsW1)
          (WitnessPolicy.totalSystemWitnesses wsW1) cfgW1.minNumberSystem
          cfgW1.minPercentSystem) :=
  (Evaluate_c1 cfgW1 wsW1 (by decide) (by decide) (by decide) (by decide)).1

/-- C2 counterexample: with an AND policy and one batch and one system witness
sharing the URI `u`, that URI is common, yet `Select` returns it twice, not
once, in the selection list. -/
theorem Select_and_c2_cex :
    intersection (eligibleBatchWitnesses cfgAndCommon [wBu, wSu] [])
        (eligibleSystemWitnesses cfgAndCommon [wBu, wSu] []) = [wSu]
    ∧ Select cfgAndCommon [wBu, wSu] [] = Except.ok [wSu, wSu]
    ∧ (([wSu, wSu] : List Witness).countP fun w => w.uri == wSu.uri) = 2 :=
  ⟨rfl, rfl, rfl⟩

/-- C2 as amended: under AND, `Select` returns the concatenation of the batch
and system selections, and every common (preferred) witness URI occurs exactly
twice in the returned list — once in each class selection. -/
theorem Select_and_c2 (cfg : WitnessPolicyConfig) (ws ex r : List Witness)
    (hop : cfg.operator = Operator.AND) (h : Select cfg ws ex = Except.ok r) :
    (∃ sb ss, selectBatchAndSystemWitnesses cfg ws ex = Except.ok (sb, ss) ∧ r = sb ++ ss)
    ∧ ∀ u ∈ (intersection (eligibleBatchWitnesses cfg ws ex)
          (eligibleSystemWitnesses cfg ws ex)).map Witness.uri,
        (r.countP fun w => w.uri == u) = 2 := by
  have hand : (cfg.operator == Operator.AND) = true := by
    rw [hop]
    rfl
  cases hsel : selectBatchAndSystemWitnesses cfg ws ex with
  | error e =>
    unfold Select at h
    rw [hsel] at h
    exact absurd h (by simp)
  | ok p =>
    rcases p with ⟨sb, ss⟩
    rw [Select_eq_of_pair cfg ws ex sb ss hsel, if_pos hand, Except.ok.injEq] at h
    subst h
    refine ⟨⟨sb, ss, rfl, rfl⟩, ?_⟩
    rcases selectBatchAndSystemWitnesses_ok_elim cfg ws ex sb ss hsel with ⟨hsb, hss⟩
    rw [if_pos hand] at hsb hss
    intro u hu
    have hnd : ((intersection (eligibleBatchWitnesses cfg ws ex)
        (eligibleSystemWitnesses cfg ws ex)).map Witness.uri).Nodup := by
      unfold intersection
      exact (intersectionAux_uris_nodup _ _ _).1
    have hc1 : ((intersection (eligibleBatchWitnesses cfg ws ex)
        (eligibleSystemWitnesses cfg ws ex)).countP fun w => w.uri == u) = 1 :=
      countP_uri_eq_one _ _ hnd hu
    rcases hsb with ⟨hempty, -⟩ | hokB
    · have heb : eligibleBatchWitnesses cfg ws ex = [] := List.isEmpty_iff.mp hempty
      rw [heb] at hu
      have hnil : intersection ([] : List Witness) (eligibleSystemWitnesses cfg ws ex) = [] := by
        unfold intersection
        exact intersectionAux_nil _ _
      rw [hnil] at hu
      simp at hu
    · rcases (selectMinWitnesses_ok_iff _ _ _ _ _ _).mp hokB with ⟨-, hsbEq⟩
      rcases (selectMinWitnesses_ok_iff _ _ _ _ _ _).mp hss with ⟨-, hssEq⟩
      have htB : (((difference (eligibleBatchWitnesses cfg ws ex)
          (intersection (eligibleBatchWitnesses cfg ws ex)
            (eligibleSystemWitnesses cfg ws ex))).take
          (minSelection cfg.minNumberBatch cfg.minPercentBatch (totalBatchCandidates ws)
            (eligibleBatchWitnesses cfg ws ex).length
            (intersection (eligibleBatchWitnesses cfg ws ex)
              (eligibleSystemWitnesses cfg ws ex)).length).toNat).countP
          fun w => w.uri == u) = 0 := by
        rw [List.countP_eq_zero]
        intro w hw
        have hwdiff := List.take_subset _ _ hw
        have hmem := (mem_difference _ _ _).mp hwdiff
        simp only [beq_iff_eq]
        intro hequ
        exact hmem.2 (hequ ▸ hu)
      have htS : (((difference (eligibleSystemWitnesses cfg ws ex)
          (intersection (eligibleBatchWitnesses cfg ws ex)
            (eligibleSystemWitnesses cfg ws ex))).take
          (minSelection cfg.minNumberSystem cfg.minPercentSystem (totalSystemCandidates ws)
            (eligibleSystemWitnesses cfg ws ex).length
            (intersection (eligibleBatchWitnesses cfg ws ex)
              (eligibleSystemWitnesses cfg ws ex)).length).toNat).countP
          fun w => w.uri == u) = 0 := by
        rw [List.countP_eq_zero]
        intro w hw
        have hwdiff := List.take_subset _ _ hw
        have hmem := (mem_difference _ _ _).mp hwdiff
        simp only [beq_iff_eq]
        intro hequ
        exact hmem.2 (hequ ▸ hu)
      rw [hsbEq, hssEq, List.countP_append, List.countP_append, List.countP_append,
        hc1, htB, htS]

/-- Witness for the amended C2 at the concrete common-URI input. -/
theorem Select_and_c2_witness :
    (∃ sb ss, selectBatchAndSystemWitnesses cfgAndCommon [wBu, wSu] [] = Except.ok (sb, ss) ∧
        ([wSu, wSu] : List Witness) = sb ++ ss)
    ∧ ∀ u ∈ (intersection (eligibleBatchWitnesses cfgAndCommon [wBu, wSu] [])
          (eligibleSystemWitnesses cfgAndCommon [wBu, wSu] [])).map Witness.uri,
        (([wSu, wSu] : List Witness).countP fun w => w.uri == u) = 2 :=
  Select_and_c2 cfgAndCommon [wBu, wSu] [] [wSu, wSu] rfl rfl

set_option maxRecDepth 40000 in
/-- C3 counterexample: with MinPercent = 55 over a class total of 100, the
program computes its float64 ceiling as 56, while the claim's exact ceiling
`⌈55/100 × 100⌉` is 55: selecting from one hundred eligible witnesses with no
preferred ones returns 56 witnesses, one more than the claimed formula. -/
theorem selectMinWitnesses_c3_cex :
    minSelection 0 55 100 ((witnesses100 : List Witness).length : Int) 0 = 56
    ∧ minSelectionCeilInt 0 55 100 ((witnesses100 : List Witness).length : Int) 0 = 55
    ∧ (⌈(55 : ℚ) / 100 * (100 : ℚ)⌉ : Int) = 55
    ∧ selectMinWitnesses witnesses100 0 55 100 [] = Except.ok (witnesses100.take 56)
    ∧ (witnesses100.take 56).length = 56 := by
  refine ⟨by decide, by decide, ?_, rfl, by decide⟩
  rw [show ((55 : ℚ) / 100 * (100 : ℚ)) = ((55 : ℤ) : ℚ) by norm_num]
  exact Int.ceil_intCast 55

/-- C3 as amended: the per-class selection target is `minNumber - |preferred|`
when `minNumber > 0`, else the float64
`int(math.Ceil(float64(minPercent)/100 × float64(total))) - |preferred|`
(`goCeilPercent`) when `minPercent ≥ 0` — which can exceed the exact ceiling
`⌈minPercent/100 × total⌉` captured by `minSelectionCeilInt` — else
`|eligible| - |preferred|`; selection succeeds exactly when the target fits
the eligible non-preferred witnesses, and the number of additional witnesses
actually selected is the target clamped to `≥ 0`. -/
theorem selectMinWitnesses_c3 (eligible : List Witness) (mn mp tot : Int)
    (preferred r : List Witness) :
    (mn > 0 → minSelection mn mp tot eligible.length preferred.length =
        mn - (preferred.length : Int))
    ∧ (mn ≤ 0 → 0 ≤ mp → minSelection mn mp tot eligible.length preferred.length =
        goCeilPercent mp tot - (preferred.length : Int))
    ∧ (mn ≤ 0 → mp < 0 → minSelection mn mp tot eligible.length preferred.length =
        (eligible.length : Int) - (preferred.length : Int))
    ∧ (minSelectionCeilInt mn mp tot eligible.length preferred.length =
        if mn > 0 then mn - (preferred.length : Int)
        else if 0 ≤ mp then ⌈(mp : ℚ) / 100 * (tot : ℚ)⌉ - (preferred.length : Int)
        else (eligible.length : Int) - (preferred.length : Int))
    ∧ (selectMinWitnesses eligible mn mp tot preferred = Except.ok r ↔
        (minSelection mn mp tot eligible.length preferred.length ≤
            ((difference eligible preferred).length : Int) ∧
          r = preferred ++ (difference eligible preferred).take
            (minSelection mn mp tot eligible.length preferred.length).toNat))
    ∧ (selectMinWitnesses eligible mn mp tot preferred = Except.ok r →
        (r.length : Int) = (preferred.length : Int) +
          max (minSelection mn mp tot eligible.length preferred.length) 0) := by
  refine ⟨?_, ?_, ?_, ?_, selectMinWitnesses_ok_iff eligible mn mp tot preferred r, ?_⟩
  · intro h
    unfold minSelection
    rw [if_pos h]
  · intro h1 h2
    unfold minSelection
    rw [if_neg (by omega), if_pos (by omega)]
  · intro h1 h2
    unfold minSelection
    rw [if_neg (by omega), if_neg (by omega)]
  · unfold minSelectionCeilInt
    by_cases h1 : mn > 0
    · rw [if_pos h1, if_pos h1]
    · rw [if_neg h1, if_neg h1]
      by_cases h2 : mp ≥ 0
      · rw [if_pos h2, if_pos h2]
        rw [show ((mp : ℚ) / 100 * (tot : ℚ)) = ((mp * tot : ℤ) : ℚ) / 100 by
          push_cast
          ring]
        rw [ceil_div_100]
      · rw [if_neg h2, if_neg h2]
  · intro h
    rcases (selectMinWitnesses_ok_iff eligible mn mp tot preferred r).mp h with ⟨hle, hr⟩
    have hlen : r.length = preferred.length +
        min (minSelection mn mp tot eligible.length preferred.length).toNat
          (difference eligible preferred).length := by
      rw [hr, List.length_append, List.length_take]
    omega

set_option maxRecDepth 40000 in
/-- Witness for the amended C3 exercising the percent branch: half of four
witnesses, where the float64 target and the exact ceiling agree. -/
theorem selectMinWitnesses_c3_witness :
    selectMinWitnesses [wa, wb, wc, wd] 0 50 4 [] = Except.ok [wa, wb]
    ∧ (([wa, wb] : List Witness).length : Int) = (([] : List Witness).length : Int) +
        max (minSelection 0 50 4 ([wa, wb, wc, wd] : List Witness).length
          ([] : List Witness).length) 0 := by
  have hok := (selectMinWitnesses_c3 [wa, wb, wc, wd] 0 50 4 [] [wa, wb]).2.2.2.2.1.mpr
    ⟨by decide, by decide⟩
  exact ⟨hok, (selectMinWitnesses_c3 [wa, wb, wc, wd] 0 50 4 [] [wa, wb]).2.2.2.2.2 hok⟩

/-- C4 counterexample: a batch record whose proof is present but empty is
counted by `Evaluate` (the source tests `Proof != nil`), so `Evaluate` is
true where the claim's `len(Proof) > 0` counting yields false. -/
theorem Evaluate_c4_cex :
    WitnessPolicy.Evaluate cfgProofPresence [wpEmptyProof] = true
    ∧ EvaluateLenPos cfgProofPresence [wpEmptyProof] = false
    ∧ wpEmptyProof.proof = some [] := by
  refine ⟨?_, ?_, rfl⟩
  · have e1 : evaluate 1 1 1 100 = true := by
      unfold evaluate
      norm_num
    have e2 : evaluate 0 0 0 0 = true := by
      unfold evaluate maxPercent
      norm_num
    show Operator.fnc Operator.AND (evaluate 1 1 1 100) (evaluate 0 0 0 0) = true
    rw [e1, e2]
    rfl
  · have e1 : evaluate 0 1 1 100 = false := by
      unfold evaluate maxPercent
      norm_num
    have e2 : evaluate 0 0 0 0 = true := by
      unfold evaluate maxPercent
      norm_num
    show Operator.fnc Operator.AND (evaluate 0 1 1 100) (evaluate 0 0 0 0) = false
    rw [e1, e2]
    rfl

/-- C4 as amended: a record is counted exactly when the log check passes and
its proof is present (non-nil), so `Evaluate` is invariant under any rewrite
of the proof bytes that preserves presence, empty or not. -/
theorem Evaluate_proof_presence_c4 (cfg : WitnessPolicyConfig) (ws : List WitnessProof)
    (f : Option (List Nat) → Option (List Nat)) (hf : ∀ o, (f o).isSome = o.isSome) :
    WitnessPolicy.Evaluate cfg (ws.map fun w => { w with proof := f w.proof }) =
      WitnessPolicy.Evaluate cfg ws := by
  have hmap : ∀ (p : WitnessProof → Bool),
      (List.filter p (ws.map fun w => { w with proof := f w.proof })).length =
        (List.filter (fun w => p { w with proof := f w.proof }) ws).length := by
    intro p
    rw [List.filter_map]
    rw [List.length_map]
    rfl
  unfold WitnessPolicy.Evaluate WitnessPolicy.collectedBatchWitnesses
    WitnessPolicy.collectedSystemWitnesses WitnessPolicy.totalBatchWitnesses
    WitnessPolicy.totalSystemWitnesses
  rw [hmap, hmap, hmap, hmap]
  have hcongr : ∀ cls : WitnessType,
      (fun w : WitnessProof => ((({ w with proof := f w.proof } : WitnessProof)).wtype == cls &&
          checkLog cfg.logRequired ({ w with proof := f w.proof } : WitnessProof).hasLog &&
          ({ w with proof := f w.proof } : WitnessProof).proof.isSome)) =
        (fun w : WitnessProof => (w.wtype == cls && checkLog cfg.logRequired w.hasLog &&
          w.proof.isSome)) := by
    intro cls
    funext w
    show (w.wtype == cls && checkLog cfg.logRequired w.hasLog && (f w.proof).isSome) = _
    rw [hf w.proof]
  rw [hcongr, hcongr]

/-- Witness for the amended C4: rewriting the empty present proof to a
non-empty one leaves the evaluation unchanged. -/
theorem Evaluate_proof_presence_c4_witness :
    WitnessPolicy.Evaluate cfgProofPresence
        ([wpEmptyProof].map fun w => { w with proof := fKeepPresence w.proof }) =
      WitnessPolicy.Evaluate cfgProofPresence [wpEmptyProof] :=
  Evaluate_proof_presence_c4 cfgProofPresence [wpEmptyProof] fKeepPresence
    (fun o => by cases o <;> rfl)

/-- C5: under OR, `Select` returns the system selection when the batch
selection is empty (regardless of size), the strictly smaller selection
otherwise, and the batch selection on ties. -/
theorem Select_or_c5 (cfg : WitnessPolicyConfig) (ws ex sb ss : List Witness)
    (hop : cfg.operator = Operator.OR)
    (h : selectBatchAndSystemWitnesses cfg ws ex = Except.ok (sb, ss)) :
    (sb = [] → Select cfg ws ex = Except.ok ss)
    ∧ (sb ≠ [] → ss.length < sb.length → Select cfg ws ex = Except.ok ss)
    ∧ (sb ≠ [] → sb.length ≤ ss.length → Select cfg ws ex = Except.ok sb) := by
  unfold Select
  rw [h]
  have hbeq : (cfg.operator == Operator.AND) = false := by
    rw [hop]
    rfl
  simp only [hbeq, Bool.false_eq_true, if_false]
  refine ⟨?_, ?_, ?_⟩
  · intro hsb
    subst hsb
    simp
  · intro hsb hlt
    rw [if_pos (by simp [hlt])]
  · intro hsb hle
    have h1 : ¬(sb.length = 0) := by
      simpa [List.length_eq_zero] using hsb
    have h2 : ¬(ss.length < sb.length) := Nat.not_lt.mpr hle
    rw [if_neg (by simp [h1, h2])]

/-- Witness for C5: an OR policy with equal-size selections prefers batch. -/
theorem Select_or_c5_witness : Select cfgOr [wB1, wS1] [] = Except.ok [wB1] :=
  (Select_or_c5 cfgOr [wB1, wS1] [] [wB1] [wS1] rfl rfl).2.2 (by decide) (by decide)

/-- C6: with `LogRequired` set, every witness returned by `Select` has a
transparency log: log-less witnesses are excluded from both classes. -/
theorem Select_logRequired_c6 (cfg : WitnessPolicyConfig) (ws ex r : List Witness)
    (hlog : cfg.logRequired = true) (h : Select cfg ws ex = Except.ok r) :
    ∀ w ∈ r, w.hasLog = true := by
  cases hsel : selectBatchAndSystemWitnesses cfg ws ex with
  | error e =>
    unfold Select at h
    rw [hsel] at h
    exact absurd h (by simp)
  | ok p =>
    rcases p with ⟨sb, ss⟩
    rw [Select_eq_of_pair cfg ws ex sb ss hsel] at h
    rcases selectBatchAndSystemWitnesses_ok_elim cfg ws ex sb ss hsel with ⟨hsb, hss⟩
    have hmb : ∀ w ∈ sb, w.hasLog = true := by
      rcases hsb with ⟨-, hnil⟩ | hok
      · subst hnil
        intro w hw
        simp at hw
      · intro w hw
        rcases mem_of_selectMinWitnesses _ _ _ _ _ _ hok w hw with hw' | hw'
        · exact eligibleSystem_hasLog cfg ws ex hlog w (mem_common_sub cfg ws ex w hw')
        · exact eligibleBatch_hasLog cfg ws ex hlog w hw'
    have hms : ∀ w ∈ ss, w.hasLog = true := by
      intro w hw
      rcases mem_of_selectMinWitnesses _ _ _ _ _ _ hss w hw with hw' | hw'
      · exact eligibleSystem_hasLog cfg ws ex hlog w (mem_common_sub cfg ws ex w hw')
      · exact eligibleSystem_hasLog cfg ws ex hlog w hw'
    by_cases hand : (cfg.operator == Operator.AND) = true
    · rw [if_pos hand, Except.ok.injEq] at h
      subst h
      intro w hw
      rcases List.mem_append.mp hw with hw | hw
      · exact hmb w hw
      · exact hms w hw
    · rw [if_neg hand] at h
      by_cases hcond : (decide (sb.length = 0) || decide (ss.length < sb.length)) = true
      · rw [if_pos hcond, Except.ok.injEq] at h
        subst h
        exact hms
      · rw [if_neg hcond, Except.ok.injEq] at h
        subst h
        exact hmb

/-- Witness for C6 at a concrete log-requiring policy. -/
theorem Select_logRequired_c6_witness : wB1.hasLog = true :=
  Select_logRequired_c6 cfgLogReq [wB1, wS1] [] [wB1, wS1] rfl rfl wB1 (by decide)

namespace WitnessStore

/-- C7: `AddProof` returns the not-found error exactly when no record of the
anchor carries the witness URI, otherwise it sets the proof bytes on every
matching record and leaves the rest unchanged; the error string carries both
the witness URI and the anchor ID. -/
theorem AddProof_c7 (st : WStore) (anchorID uri : String) (p : List Nat) :
    (AddProof st anchorID uri p = Except.error (StoreErr.witnessesNotFound [uri] anchorID)
      ↔ ∀ e ∈ st, hasAnchorTag e (encodeAnchorID anchorID) = true → e.value.uri ≠ uri)
    ∧ ((∃ e ∈ st, hasAnchorTag e (encodeAnchorID anchorID) = true ∧ e.value.uri = uri) →
        AddProof st anchorID uri p = Except.ok (st.map fun e =>
          if hasAnchorTag e (encodeAnchorID anchorID) && [uri].contains e.value.uri then
            { e with value := { e.value with proof := some p },
                     tags := [(anchorIndex, encodeAnchorID anchorID)] }
          else e))
    ∧ (∃ s1 s2, errMsg (StoreErr.witnessesNotFound [uri] anchorID) = s1 ++ uri ++ s2)
    ∧ (∃ s3 s4, errMsg (StoreErr.witnessesNotFound [uri] anchorID) = s3 ++ anchorID ++ s4) := by
  have hmatch : ∀ e : Entry,
      (hasAnchorTag e (encodeAnchorID anchorID) && [uri].contains e.value.uri) = true ↔
        (hasAnchorTag e (encodeAnchorID anchorID) = true ∧ e.value.uri = uri) := by
    intro e
    simp [List.contains, Bool.and_eq_true]
  have hkey : ((st.filter fun e =>
        hasAnchorTag e (encodeAnchorID anchorID) && [uri].contains e.value.uri).length = 0) ↔
      ∀ e ∈ st, hasAnchorTag e (encodeAnchorID anchorID) = true → e.value.uri ≠ uri := by
    rw [List.length_eq_zero, List.filter_eq_nil_iff]
    constructor
    · intro h e he htag huri
      exact h e he ((hmatch e).mpr ⟨htag, huri⟩)
    · intro h e he hm
      rcases (hmatch e).mp hm with ⟨htag, huri⟩
      exact h e he htag huri
  refine ⟨?_, ?_, ?_, ?_⟩
  · unfold AddProof updateWitnessProof
    by_cases h0 : ((st.filter fun e =>
        hasAnchorTag e (encodeAnchorID anchorID) && [uri].contains e.value.uri).length = 0)
    · simp only [h0, if_pos rfl]
      exact ⟨fun _ => hkey.mp h0, fun _ => rfl⟩
    · simp only [if_neg h0]
      constructor
      · intro h
        exact absurd h (by simp)
      · intro h
        exact absurd (hkey.mpr h) h0
  · rintro ⟨e, he, htag, huri⟩
    unfold AddProof updateWitnessProof
    rw [if_neg]
    intro hlen
    exact (hkey.mp hlen) e he htag huri
  · exact ⟨"witness[", "] not found for anchorID[" ++ anchorID ++ "]", by
      simp [errMsg, String.intercalate, String.intercalate.go, String.append_assoc]⟩
  · exact ⟨"witness[" ++ uri ++ "] not found for anchorID[", "]", by
      simp [errMsg, String.intercalate, String.intercalate.go, String.append_assoc]⟩

/-- Witness for C7: adding a proof to the one matching stored record. -/
theorem AddProof_c7_witness :
    AddProof [entU1] "a" "u1" [1, 2] = Except.ok ([entU1].map fun e =>
      if hasAnchorTag e (encodeAnchorID "a") && ["u1"].contains e.value.uri then
        { e with value := { e.value with proof := some [1, 2] },
                 tags := [(anchorIndex, encodeAnchorID "a")] }
      else e) :=
  (AddProof_c7 [entU1] "a" "u1" [1, 2]).2.1
    ⟨entU1, List.mem_singleton.mpr rfl, by decide, rfl⟩

/-- C8 counterexample: with one stored record `u1`, updating the selection of
`[u1, u2]` succeeds even though `u2` matches no record — the source errors
only when the match count is zero, not when any URI is unmatched. -/
theorem UpdateWitnessSelection_c8_cex :
    (∀ e ∈ ([entU1] : WStore), e.value.uri ≠ "u2")
    ∧ UpdateWitnessSelection [entU1] "a" ["u1", "u2"] true =
        Except.ok [⟨0, ⟨WitnessType.batch, "u1", true, true, none⟩, [(anchorIndex, "a")]⟩] := by
  constructor
  · intro e he
    simp only [List.mem_singleton] at he
    subst he
    decide
  · rfl

/-- C8 as amended: `UpdateWitnessSelection` sets the selection flag on every
record whose URI is in the list and returns the not-found error exactly when
none of the given URIs matches any record of the anchor. -/
theorem UpdateWitnessSelection_c8 (st : WStore) (anchorID : String) (uris : List String)
    (selected : Bool) :
    (UpdateWitnessSelection st anchorID uris selected =
        Except.error (StoreErr.witnessesNotFound uris anchorID)
      ↔ ∀ e ∈ st, hasAnchorTag e (encodeAnchorID anchorID) = true → e.value.uri ∉ uris)
    ∧ ((∃ e ∈ st, hasAnchorTag e (encodeAnchorID anchorID) = true ∧ e.value.uri ∈ uris) →
        UpdateWitnessSelection st anchorID uris selected = Except.ok (st.map fun e =>
          if hasAnchorTag e (encodeAnchorID anchorID) && uris.contains e.value.uri then
            { e with value := { e.value with selected := selected },
                     tags := [(anchorIndex, encodeAnchorID anchorID)] }
          else e)) := by
  have hmatch : ∀ e : Entry,
      (hasAnchorTag e (encodeAnchorID anchorID) && uris.contains e.value.uri) = true ↔
        (hasAnchorTag e (encodeAnchorID anchorID) = true ∧ e.value.uri ∈ uris) := by
    intro e
    simp [List.contains, Bool.and_eq_true]
  have hkey : ((st.filter fun e =>
        hasAnchorTag e (encodeAnchorID anchorID) && uris.contains e.value.uri).length = 0) ↔
      ∀ e ∈ st, hasAnchorTag e (encodeAnchorID anchorID) = true → e.value.uri ∉ uris := by
    rw [List.length_eq_zero, List.filter_eq_nil_iff]
    constructor
    · intro h e he htag huri
      exact h e he ((hmatch e).mpr ⟨htag, huri⟩)
    · intro h e he hm
      rcases (hmatch e).mp hm with ⟨htag, huri⟩
      exact h e he htag huri
  constructor
  · unfold UpdateWitnessSelection updateWitnessProof
    by_cases h0 : ((st.filter fun e =>
        hasAnchorTag e (encodeAnchorID anchorID) && uris.contains e.value.uri).length = 0)
    · simp only [h0, if_pos rfl]
      exact ⟨fun _ => hkey.mp h0, fun _ => rfl⟩
    · simp only [if_neg h0]
      constructor
      · intro h
        exact absurd h (by simp)
      · intro h
        exact absurd (hkey.mpr h) h0
  · rintro ⟨e, he, htag, huri⟩
    unfold UpdateWitnessSelection updateWitnessProof
    rw [if_neg]
    intro hlen
    exact (hkey.mp hlen) e he htag huri

/-- Witness for the amended C8: the not-found error when no URI matches. -/
theorem UpdateWitnessSelection_c8_witness :
    UpdateWitnessSelection [entU1] "a" ["zz"] true =
      Except.error (StoreErr.witnessesNotFound ["zz"] "a") :=
  ((UpdateWitnessSelection_c8 [entU1] "a" ["zz"] true).1).mpr (by decide)

/-- C9: `Delete` removes exactly the records of the anchor (a no-op success
when there are none), and a subsequent `Get` yields the not-found error. -/
theorem Delete_c9 (st : WStore) (anchorID : String) :
    (∀ e ∈ Delete st anchorID, hasAnchorTag e (encodeAnchorID anchorID) = false)
    ∧ (∀ e ∈ st, hasAnchorTag e (encodeAnchorID anchorID) = false → e ∈ Delete st anchorID)
    ∧ ((∀ e ∈ st, hasAnchorTag e (encodeAnchorID anchorID) = false) → Delete st anchorID = st)
    ∧ Get (Delete st anchorID) anchorID = Except.error (StoreErr.anchorNotFound anchorID) := by
  refine ⟨?_, ?_, ?_, ?_⟩
  · intro e he
    simp only [Delete, List.mem_filter, Bool.not_eq_true'] at he
    exact he.2
  · intro e he h
    simp only [Delete, List.mem_filter]
    exact ⟨he, by simp [h]⟩
  · intro h
    apply List.filter_eq_self.mpr
    intro e he
    simp [h e he]
  · unfold Get Delete
    have hnil : ((st.filter fun e => !(hasAnchorTag e (encodeAnchorID anchorID))).filter
        fun e => hasAnchorTag e (encodeAnchorID anchorID)) = [] := by
      apply List.filter_eq_nil_iff.mpr
      intro e he
      simp only [List.mem_filter, Bool.not_eq_true'] at he
      simp [he.2]
    simp [hnil]

/-- Witness for C9: delete then get on a concrete store. -/
theorem Delete_c9_witness :
    Get (Delete [entU1] "a") "a" = Except.error (StoreErr.anchorNotFound "a") :=
  (Delete_c9 [entU1] "a").2.2.2

/-- C10: an update writes a matched record back under the same primary key
with only the anchor index tag, while `Put` had attached both the anchor
index and the `ExpiryTime` tag, so the rewritten record loses its TTL-expiry
marking. -/
theorem update_tags_c10 (st : WStore) (aid uri : String) (uris : List String) (p : List Nat)
    (sel : Bool) (st1 st2 : WStore) (witnesses : List Witness) (keys : List Nat)
    (expiryVal : String) :
    (AddProof st aid uri p = Except.ok st1 →
      ∀ e ∈ st, hasAnchorTag e (encodeAnchorID aid) = true → e.value.uri = uri →
        (⟨e.key, { e.value with proof := some p },
          [(anchorIndex, encodeAnchorID aid)]⟩ : Entry) ∈ st1)
    ∧ (UpdateWitnessSelection st aid uris sel = Except.ok st2 →
      ∀ e ∈ st, hasAnchorTag e (encodeAnchorID aid) = true → e.value.uri ∈ uris →
        (⟨e.key, { e.value with selected := sel },
          [(anchorIndex, encodeAnchorID aid)]⟩ : Entry) ∈ st2)
    ∧ (∀ e ∈ Put st aid witnesses keys expiryVal, e ∈ st ∨
        e.tags = [(anchorIndex, encodeAnchorID aid), (expiryTagName, expiryVal)])
    ∧ (∀ v : String, (expiryTagName, v) ∉ ([(anchorIndex, encodeAnchorID aid)] :
        List (String × String))) := by
  refine ⟨?_, ?_, ?_, ?_⟩
  · intro h e he htag huri
    unfold AddProof updateWitnessProof at h
    by_cases h0 : ((st.filter fun e =>
        hasAnchorTag e (encodeAnchorID aid) && [uri].contains e.value.uri).length = 0)
    · rw [if_pos h0] at h
      exact absurd h (by simp)
    · rw [if_neg h0] at h
      rw [Except.ok.injEq] at h
      subst h
      simpa [htag, huri] using List.mem_map_of_mem (fun e : Entry =>
        if hasAnchorTag e (encodeAnchorID aid) && [uri].contains e.value.uri then
          { e with value := { e.value with proof := some p },
                   tags := [(anchorIndex, encodeAnchorID aid)] }
        else e) he
  · intro h e he htag huri
    unfold UpdateWitnessSelection updateWitnessProof at h
    by_cases h0 : ((st.filter fun e =>
        hasAnchorTag e (encodeAnchorID aid) && uris.contains e.value.uri).length = 0)
    · rw [if_pos h0] at h
      exact absurd h (by simp)
    · rw [if_neg h0] at h
      rw [Except.ok.injEq] at h
      subst h
      simpa [htag, huri] using List.mem_map_of_mem (fun e : Entry =>
        if hasAnchorTag e (encodeAnchorID aid) && uris.contains e.value.uri then
          { e with value := { e.value with selected := sel },
                   tags := [(anchorIndex, encodeAnchorID aid)] }
        else e) he
  · intro e he
    unfold Put at he
    rw [List.mem_append] at he
    rcases he with he | he
    · exact Or.inl he
    · right
      rw [List.mem_map] at he
      rcases he with ⟨kw, _, hkw⟩
      rw [← hkw]
  · intro v hv
    simp only [List.mem_singleton, Prod.mk.injEq] at hv
    have hne : expiryTagName ≠ anchorIndex := by decide
    exact hne hv.1

/-- Witness for C10: the concrete rewritten record keeps its key and carries
only the anchor index tag. -/
theorem update_tags_c10_witness :
    (⟨0, ⟨WitnessType.batch, "u1", true, false, some [5]⟩,
      [(anchorIndex, encodeAnchorID "a")]⟩ : Entry) ∈
      ([⟨0, ⟨WitnessType.batch, "u1", true, false, some [5]⟩,
        [(anchorIndex, "a")]⟩] : WStore) :=
  (update_tags_c10 [entU1] "a" "u1" [] [5] true
      [⟨0, ⟨WitnessType.batch, "u1", true, false, some [5]⟩, [(anchorIndex, "a")]⟩]
      [] [] [] "9").1 rfl entU1 (List.mem_singleton.mpr rfl) (by decide) rfl

end WitnessStore
